import Mathlib

/-!
Verification of the MySQL-Schema-Compare schema diffing engine.

The repository compares the schema of a reference ("dev") MySQL database
against a target ("main") database and reports what the target is missing.
The core logic lives in the `SchemaChecker` class (src/index.js and the
richer variant src/unnamed/part_000): catalog readers (`getTableColumns`,
`getTableIndexes`), the pure column comparator (`compareColumns`), the SQL
emitters (`generateAlterColumnCommand`, `generateModifyColumnCommand`) and
the differ (`checkAndReport`).

This file shallowly embeds that logic: the catalog query results become
explicit lists, the two live connections become a `Catalog` value (a table
list plus per-table column and index lists), and the imperative
accumulation loops become structural recursion.  Strings are modelled as
Lean `String`, the JavaScript `null` default sentinel as `Option.none`.
-/

namespace SchemaCompare

/-- One row of the `INFORMATION_SCHEMA.COLUMNS` query issued by
`getTableColumns` (src/index.js lines 77-96), with the aliases used there.
`defaultValue` is `none` exactly when the catalog reports SQL NULL
(JavaScript `null`); the spec's data model keeps that sentinel distinct
from the empty string.  `maxLength`, `numericPrecision`, `numericScale`
are informational and never compared. -/
structure ColumnDescriptor where
  name : String
  type : String
  nullable : String
  defaultValue : Option String
  extra : String
  keyType : String
  maxLength : Option Nat
  numericPrecision : Option Nat
  numericScale : Option Nat
deriving DecidableEq

/-- One row of the `SHOW INDEX FROM` result consumed by `getTableIndexes`
(src/index.js lines 98-117); only the three fields the code reads. -/
structure IndexRow where
  Key_name : String
  Column_name : String
  Non_unique : Nat
deriving DecidableEq

/-- The grouped index value built by `getTableIndexes`
(src/index.js lines 104-110). -/
structure IndexDescriptor where
  name : String
  columns : List String
  unique : Bool
  table : String
deriving DecidableEq

/-- One step of the `rows.forEach` loop of `getTableIndexes`
(src/index.js lines 102-114): skip `PRIMARY` rows; otherwise create the
descriptor (with empty `columns` and `unique` derived from this first
row's `Non_unique === 0`) if the key name is new, then push the row's
column name onto the descriptor with that key name. -/
def addIndexRow (tableName : String) (acc : List IndexDescriptor)
    (row : IndexRow) : List IndexDescriptor :=
  if row.Key_name = "PRIMARY" then acc
  else
    let acc' :=
      if acc.any (fun d => d.name == row.Key_name) then acc
      else acc ++ [{ name := row.Key_name, columns := [],
                     unique := decide (row.Non_unique = 0),
                     table := tableName }]
    acc'.map (fun d =>
      if d.name == row.Key_name then
        { d with columns := d.columns ++ [row.Column_name] }
      else d)

/-- `getTableIndexes` (src/index.js lines 98-117) with the `SHOW INDEX`
rows passed explicitly in place of the connection.  The JavaScript object
`indexes` keyed by `Key_name` is modelled as a list in insertion order;
`Object.values` returns insertion order for non-integer-like string keys
(integer-like index names would be reordered first by JavaScript, but no
property stated below depends on the relative order of distinct
indexes). -/
def getTableIndexes (tableName : String) (rows : List IndexRow) :
    List IndexDescriptor :=
  rows.foldl (addIndexRow tableName) []

/-- The ternary `x.defaultValue === null ? 'NULL' : x.defaultValue` used
on both sides of the default comparison (src/index.js lines 130-132):
the `null` sentinel is normalized to the literal string `NULL`. -/
def normalizeDefault : Option String → String
  | none => "NULL"
  | some v => v

/-- `compareColumns(devColumn, mainColumn)` (src/index.js lines 119-143).
`devColumn` is the reference side, `mainColumn` the target side; each of
the four checks pushes at most one note, in source order
type, nullable, default, extra.  The `null` default sentinel is
normalized to the literal string `"NULL"` before the default check. -/
def compareColumns (devColumn mainColumn : ColumnDescriptor) :
    List String :=
  let differences : List String := []
  let differences :=
    if devColumn.type ≠ mainColumn.type then
      differences ++
        ["type: '" ++ mainColumn.type ++ "' → '" ++ devColumn.type ++ "'"]
    else differences
  let differences :=
    if devColumn.nullable ≠ mainColumn.nullable then
      differences ++
        ["nullable: " ++ mainColumn.nullable ++ " → " ++ devColumn.nullable]
    else differences
  let devDefault := normalizeDefault devColumn.defaultValue
  let mainDefault := normalizeDefault mainColumn.defaultValue
  let differences :=
    if devDefault ≠ mainDefault then
      differences ++ ["default: " ++ mainDefault ++ " → " ++ devDefault]
    else differences
  let differences :=
    if devColumn.extra ≠ mainColumn.extra then
      differences ++
        ["extra: '" ++ mainColumn.extra ++ "' → '" ++ devColumn.extra ++ "'"]
    else differences
  differences

/-- `generateAlterColumnCommand(tableName, column)` (src/index.js lines
145-161).  `column.defaultValue !== null` becomes a match on the option;
the JavaScript truthiness test `if (column.extra)` becomes a test against
the empty string. -/
def generateAlterColumnCommand (tableName : String)
    (column : ColumnDescriptor) : String :=
  let sql := "ALTER TABLE `" ++ tableName ++ "` ADD COLUMN `" ++
    column.name ++ "` " ++ column.type
  let sql := if column.nullable = "NO" then sql ++ " NOT NULL" else sql
  let sql :=
    match column.defaultValue with
    | some v => sql ++ " DEFAULT " ++ v
    | none => sql
  let sql := if column.extra ≠ "" then sql ++ " " ++ column.extra else sql
  sql ++ ";"

/-- `generateModifyColumnCommand(tableName, column)` (src/index.js lines
163-179); identical to `generateAlterColumnCommand` except for the
`MODIFY COLUMN` keyword. -/
def generateModifyColumnCommand (tableName : String)
    (column : ColumnDescriptor) : String :=
  let sql := "ALTER TABLE `" ++ tableName ++ "` MODIFY COLUMN `" ++
    column.name ++ "` " ++ column.type
  let sql := if column.nullable = "NO" then sql ++ " NOT NULL" else sql
  let sql :=
    match column.defaultValue with
    | some v => sql ++ " DEFAULT " ++ v
    | none => sql
  let sql := if column.extra ≠ "" then sql ++ " " ++ column.extra else sql
  sql ++ ";"

/-- A database as seen through the catalog reader: the result of
`getTables` plus, for each table name, the results of `getTableColumns`
and `getTableIndexes` against that connection.  The two live connections
of `checkAndReport` become two values of this type. -/
structure Catalog where
  tables : List String
  columnsOf : String → List ColumnDescriptor
  indexesOf : String → List IndexDescriptor

/-- An element `{ table, column }` pushed onto `missingColumns`
(src/index.js line 220). -/
structure MissingColumnEntry where
  table : String
  column : ColumnDescriptor
deriving DecidableEq

/-- An element `{ table, column, differences }` pushed onto
`differentColumns` (src/index.js line 226). -/
structure DifferentColumnEntry where
  table : String
  column : ColumnDescriptor
  differences : List String
deriving DecidableEq

/-- The missing-column entries the column loop of `checkAndReport`
(src/index.js lines 215-229) pushes for one table: reference columns in
ordinal order whose name-based lookup (`mainColumns.find`) in the target
columns fails. -/
def tableMissingColumns (table : String)
    (devColumns mainColumns : List ColumnDescriptor) :
    List MissingColumnEntry :=
  devColumns.filterMap (fun devColumn =>
    match mainColumns.find? (fun col => col.name == devColumn.name) with
    | none => some { table := table, column := devColumn }
    | some _ => none)

/-- The different-column entries the same loop pushes for one table:
reference columns whose lookup succeeds but whose `compareColumns` notes
are nonempty. -/
def tableDifferentColumns (table : String)
    (devColumns mainColumns : List ColumnDescriptor) :
    List DifferentColumnEntry :=
  devColumns.filterMap (fun devColumn =>
    match mainColumns.find? (fun col => col.name == devColumn.name) with
    | none => none
    | some mainColumn =>
      let differences := compareColumns devColumn mainColumn
      if differences.length > 0 then
        some { table := table, column := devColumn,
               differences := differences }
      else none)

/-- The missing-index entries the index loop of `checkAndReport`
(src/index.js lines 231-243) pushes for one table: reference indexes
whose name is not among the target table's index names. -/
def tableMissingIndexes (devIndexes mainIndexes : List IndexDescriptor) :
    List IndexDescriptor :=
  let mainIndexNames := mainIndexes.map (fun idx => idx.name)
  devIndexes.filter (fun devIndex =>
    !(mainIndexNames.contains devIndex.name))

/-- The four accumulator arrays of `checkAndReport`
(src/index.js lines 190-193). -/
structure DriftLists where
  missingTables : List String
  missingColumns : List MissingColumnEntry
  differentColumns : List DifferentColumnEntry
  missingIndexes : List IndexDescriptor
deriving DecidableEq

/-- The outer `for (const table of devTables)` loop of `checkAndReport`
(src/index.js lines 201-271), as structural recursion over the remaining
reference tables.  A table absent from the target's table list
contributes one missing-table entry and nothing else; a table present in
both contributes its per-table missing/different column entries and
missing-index entries, each list in encounter order. -/
def checkTables (dev main : Catalog) : List String → DriftLists
  | [] => { missingTables := [], missingColumns := [],
            differentColumns := [], missingIndexes := [] }
  | table :: rest =>
    let acc := checkTables dev main rest
    if ¬ (table ∈ main.tables) then
      { acc with missingTables := table :: acc.missingTables }
    else
      let devColumns := dev.columnsOf table
      let mainColumns := main.columnsOf table
      let devIndexes := dev.indexesOf table
      let mainIndexes := main.indexesOf table
      { missingTables := acc.missingTables,
        missingColumns :=
          tableMissingColumns table devColumns mainColumns ++
            acc.missingColumns,
        differentColumns :=
          tableDifferentColumns table devColumns mainColumns ++
            acc.differentColumns,
        missingIndexes :=
          tableMissingIndexes devIndexes mainIndexes ++
            acc.missingIndexes }

/-- The object returned by `checkAndReport` in the richer variant
(src/unnamed/part_000 lines 625-641). -/
structure ComparisonResult where
  isInSync : Bool
  missingTables : List String
  missingColumns : List MissingColumnEntry
  differentColumns : List DifferentColumnEntry
  missingIndexes : List IndexDescriptor
deriving DecidableEq

/-- `checkAndReport` (src/unnamed/part_000 lines 486-643): walk the
reference tables, then return `isInSync: false` with the four accumulated
lists when any of them is nonempty (src/unnamed/part_000 line 581), and
`isInSync: true` with four literal empty lists otherwise. -/
def checkAndReport (dev main : Catalog) : ComparisonResult :=
  let lists := checkTables dev main dev.tables
  if lists.missingTables.length > 0 ∨ lists.missingColumns.length > 0 ∨
      lists.differentColumns.length > 0 ∨ lists.missingIndexes.length > 0
  then
    { isInSync := false,
      missingTables := lists.missingTables,
      missingColumns := lists.missingColumns,
      differentColumns := lists.differentColumns,
      missingIndexes := lists.missingIndexes }
  else
    { isInSync := true, missingTables := [], missingColumns := [],
      differentColumns := [], missingIndexes := [] }

/-- Catalog sanity conditions guaranteed by the MySQL metadata queries the
catalog reader issues: `getTables` lists each base table once
(`TABLE_NAME` is a key of `INFORMATION_SCHEMA.TABLES` within a schema),
`getTableColumns` yields distinct column names within a table
(`COLUMN_NAME` is a key within a table), and every descriptor built by
`getTableIndexes conn t` carries `table := t`
(src/index.js line 109). -/
def wellFormed (c : Catalog) : Prop :=
  c.tables.Nodup ∧
  ∀ t ∈ c.tables,
    ((c.columnsOf t).map (fun col => col.name)).Nodup ∧
    ∀ i ∈ c.indexesOf t, i.table = t

/-- Structural equality of two catalogs: same table list, and the same
columns and indexes for each listed table. -/
def structEq (a b : Catalog) : Prop :=
  a.tables = b.tables ∧
  ∀ t ∈ a.tables, a.columnsOf t = b.columnsOf t ∧
    a.indexesOf t = b.indexesOf t

/-- `b` is a structural superset of `a`: every table of `a` exists in
`b`, and every column and index of a table of `a` exists identically in
`b`'s same-named table. -/
def structuralSuperset (a b : Catalog) : Prop :=
  (∀ t ∈ a.tables, t ∈ b.tables) ∧
  ∀ t ∈ a.tables,
    (∀ col ∈ a.columnsOf t, col ∈ b.columnsOf t) ∧
    (∀ i ∈ a.indexesOf t, i ∈ b.indexesOf t)

instance (c : Catalog) : Decidable (wellFormed c) := by
  unfold wellFormed; infer_instance

instance (a b : Catalog) : Decidable (structEq a b) := by
  unfold structEq; infer_instance

instance (a b : Catalog) : Decidable (structuralSuperset a b) := by
  unfold structuralSuperset; infer_instance

/-! ## Process lifecycle model

The two `main()` entry points are modelled as traces of connection and
exit events, driven by which steps succeed.  `process.exit(code)` in
Node.js terminates the process at once: code after it — including a
pending `finally` block — never runs, so a trace ends at its first
`processExit` event. -/

/-- Externally visible resource events of one run: a connection being
opened by `connect()` (src/index.js lines 31 and 50), closed by
`disconnect()` (src/index.js lines 55-58), and the process exiting. -/
inductive RunEvent where
  | openMain : RunEvent
  | openDev : RunEvent
  | closeMain : RunEvent
  | closeDev : RunEvent
  | processExit : Nat → RunEvent
deriving DecidableEq

/-- Which steps of a run succeed: the two `mysql.createConnection` calls
of `connect()`, the body between `connect()` and `disconnect()`
(`checkAndReport` plus, in the richer variant, summary and PR-comment
posting), and — for the minimal variant's exit code — whether the
comparison found the databases in sync. -/
structure RunConditions where
  mainConnectOk : Bool
  devConnectOk : Bool
  reportOk : Bool
  inSync : Bool
deriving DecidableEq

/-- The `main()` of the richer variant (src/unnamed/part_000 lines
646-726): `try` runs `connect()`, `checkAndReport()`, the summary and
comment steps, then `await checker.disconnect()` and `process.exit(0)`;
the `catch` block logs, optionally posts a failure comment, and calls
`process.exit(1)` — it contains no `disconnect()` call, so a failure
after a connection is opened leaves it unreleased. -/
def mainTraceDist (c : RunConditions) : List RunEvent :=
  if c.mainConnectOk = false then [RunEvent.processExit 1]
  else if c.devConnectOk = false then
    [RunEvent.openMain, RunEvent.processExit 1]
  else if c.reportOk = false then
    [RunEvent.openMain, RunEvent.openDev, RunEvent.processExit 1]
  else
    [RunEvent.openMain, RunEvent.openDev, RunEvent.closeMain,
     RunEvent.closeDev, RunEvent.processExit 0]

/-- The `main()` of the minimal variant (src/index.js lines 333-346):
`try { connect; checkAndReport; process.exit(isInSync ? 0 : 1) }
catch { process.exit(1) } finally { await checker.disconnect() }`.
Every path reaches `process.exit` inside the `try`/`catch`, and Node's
`process.exit` terminates the process without running the pending
`finally` block, so the `disconnect()` there never executes and no close
event ever occurs. -/
def mainTraceMinimal (c : RunConditions) : List RunEvent :=
  if c.mainConnectOk = false then [RunEvent.processExit 1]
  else if c.devConnectOk = false then
    [RunEvent.openMain, RunEvent.processExit 1]
  else if c.reportOk = false then
    [RunEvent.openMain, RunEvent.openDev, RunEvent.processExit 1]
  else
    [RunEvent.openMain, RunEvent.openDev,
     RunEvent.processExit (if c.inSync then 0 else 1)]

/-- Run conditions: both connections open, then a later step fails
(for instance a catalog query). -/
def failAfterConnect : RunConditions :=
  { mainConnectOk := true, devConnectOk := true, reportOk := false,
    inSync := true }

/-- Run conditions of a fully successful, in-sync run. -/
def allStepsOk : RunConditions :=
  { mainConnectOk := true, devConnectOk := true, reportOk := true,
    inSync := true }

/-! ## Concrete catalog values used by the witnesses -/

/-- An auto-increment integer primary-key column. -/
def colId : ColumnDescriptor :=
  { name := "id", type := "int(11)", nullable := "NO",
    defaultValue := none, extra := "auto_increment", keyType := "PRI",
    maxLength := none, numericPrecision := some 10,
    numericScale := some 0 }

/-- The missing-column example of the spec: `age int NOT NULL DEFAULT 0`. -/
def colAge : ColumnDescriptor :=
  { name := "age", type := "int", nullable := "NO",
    defaultValue := some "0", extra := "", keyType := "",
    maxLength := none, numericPrecision := some 10,
    numericScale := some 0 }

/-- An extra column only the superset catalog has. -/
def colEmail : ColumnDescriptor :=
  { name := "email", type := "varchar(255)", nullable := "YES",
    defaultValue := none, extra := "", keyType := "",
    maxLength := some 255, numericPrecision := none,
    numericScale := none }

/-- The reference column of the spec's comparator example:
`int(11)`, not nullable, no default, no extra. -/
def refIntCol : ColumnDescriptor :=
  { name := "n", type := "int(11)", nullable := "NO",
    defaultValue := none, extra := "", keyType := "",
    maxLength := none, numericPrecision := none, numericScale := none }

/-- The target column of the spec's comparator example: same but
`int(10)`. -/
def tgtIntCol : ColumnDescriptor :=
  { refIntCol with type := "int(10)" }

/-- A secondary index on `users.age`. -/
def usersIndex : IndexDescriptor :=
  { name := "ix_users_age", columns := ["age"], unique := false,
    table := "users" }

/-- An extra index only the superset catalog has. -/
def usersEmailIndex : IndexDescriptor :=
  { name := "ix_users_email", columns := ["email"], unique := true,
    table := "users" }

/-- Reference catalog with tables `orders` and `users`. -/
def catA : Catalog :=
  { tables := ["orders", "users"],
    columnsOf := fun t =>
      if t = "users" then [colId, colAge]
      else if t = "orders" then [colId] else [],
    indexesOf := fun t => if t = "users" then [usersIndex] else [] }

/-- Target catalog with only `users`, structurally matching `catA`'s
`users`. -/
def catB : Catalog :=
  { tables := ["users"],
    columnsOf := fun t => if t = "users" then [colId, colAge] else [],
    indexesOf := fun t => if t = "users" then [usersIndex] else [] }

/-- Strict structural superset of `catB`: an extra table, an extra
column on `users` and an extra index on `users`. -/
def catBplus : Catalog :=
  { tables := ["users", "logs"],
    columnsOf := fun t =>
      if t = "users" then [colId, colAge, colEmail]
      else if t = "logs" then [colId] else [],
    indexesOf := fun t =>
      if t = "users" then [usersIndex, usersEmailIndex] else [] }

/-- An index named `ix_a` over column `x`, unique, on table `t1`. -/
def ixNarrow : IndexDescriptor :=
  { name := "ix_a", columns := ["x"], unique := true, table := "t1" }

/-- An index with the same name `ix_a` but a different column set and
different uniqueness. -/
def ixWide : IndexDescriptor :=
  { name := "ix_a", columns := ["x", "y"], unique := false,
    table := "t1" }

/-- Reference catalog whose only index is `ixNarrow`. -/
def catIxRef : Catalog :=
  { tables := ["t1"],
    columnsOf := fun _ => [],
    indexesOf := fun t => if t = "t1" then [ixNarrow] else [] }

/-- Target catalog whose same-named index has a different definition. -/
def catIxTgt : Catalog :=
  { tables := ["t1"],
    columnsOf := fun _ => [],
    indexesOf := fun t => if t = "t1" then [ixWide] else [] }

/-- The `SHOW INDEX` rows of the spec's grouping example. -/
def ixRows : List IndexRow :=
  [{ Key_name := "ix_a", Column_name := "x", Non_unique := 0 },
   { Key_name := "ix_a", Column_name := "y", Non_unique := 0 }]

/-! ## Helper lemmas -/

/-- In a column list with pairwise-distinct names, name-based lookup of a
member column returns that column itself. -/
lemma find?_name_of_nodup (l : List ColumnDescriptor)
    (c : ColumnDescriptor)
    (hnd : (l.map (fun col => col.name)).Nodup) (hmem : c ∈ l) :
    l.find? (fun col => col.name == c.name) = some c := by
  induction l with
  | nil => simp at hmem
  | cons a l ih =>
    rw [List.map_cons, List.nodup_cons] at hnd
    rcases List.mem_cons.mp hmem with h | h
    · subst h
      simp [List.find?_cons]
    · have hne : (a.name == c.name) = false := by
        refine beq_eq_false_iff_ne.mpr ?_
        intro he
        exact hnd.1 (he ▸ List.mem_map_of_mem (fun col => col.name) h)
      rw [List.find?_cons, hne]
      exact ih hnd.2 h

/-- A column compared against itself yields no notes. -/
lemma compareColumns_self (c : ColumnDescriptor) :
    compareColumns c c = [] := by
  simp [compareColumns]

/-- If every reference column occurs in the target list and target names
are distinct, no column is reported missing. -/
lemma tableMissingColumns_eq_nil (t : String)
    {devCols mainCols : List ColumnDescriptor}
    (hnd : (mainCols.map (fun col => col.name)).Nodup)
    (hsub : ∀ c ∈ devCols, c ∈ mainCols) :
    tableMissingColumns t devCols mainCols = [] := by
  refine List.filterMap_eq_nil_iff.mpr (fun c hc => ?_)
  rw [find?_name_of_nodup mainCols c hnd (hsub c hc)]

/-- If every reference column occurs in the target list and target names
are distinct, no column is reported different. -/
lemma tableDifferentColumns_eq_nil (t : String)
    {devCols mainCols : List ColumnDescriptor}
    (hnd : (mainCols.map (fun col => col.name)).Nodup)
    (hsub : ∀ c ∈ devCols, c ∈ mainCols) :
    tableDifferentColumns t devCols mainCols = [] := by
  refine List.filterMap_eq_nil_iff.mpr (fun c hc => ?_)
  rw [find?_name_of_nodup mainCols c hnd (hsub c hc)]
  simp [compareColumns_self]

/-- Membership in the per-table missing-index list: exactly the reference
indexes whose name is absent from the target index names. -/
lemma mem_tableMissingIndexes {devIdx mainIdx : List IndexDescriptor}
    {i : IndexDescriptor} :
    i ∈ tableMissingIndexes devIdx mainIdx ↔
      i ∈ devIdx ∧ ¬ i.name ∈ mainIdx.map (fun idx => idx.name) := by
  simp [tableMissingIndexes, List.mem_filter, List.elem_iff]

/-- If every reference index name occurs among the target index names, no
index is reported missing. -/
lemma tableMissingIndexes_eq_nil {devIdx mainIdx : List IndexDescriptor}
    (hsub : ∀ i ∈ devIdx, i.name ∈ mainIdx.map (fun idx => idx.name)) :
    tableMissingIndexes devIdx mainIdx = [] := by
  refine List.eq_nil_iff_forall_not_mem.mpr (fun i hi => ?_)
  exact (mem_tableMissingIndexes.mp hi).2 (hsub i (mem_tableMissingIndexes.mp hi).1)

/-- Every missing-column entry produced for table `u` carries `table = u`. -/
lemma table_of_mem_tableMissingColumns {u : String}
    {devCols mainCols : List ColumnDescriptor} {e : MissingColumnEntry}
    (h : e ∈ tableMissingColumns u devCols mainCols) : e.table = u := by
  obtain ⟨c, _, hfc⟩ := List.mem_filterMap.mp h
  revert hfc
  cases mainCols.find? (fun col => col.name == c.name) with
  | none => intro hfc; cases hfc; rfl
  | some m => intro hfc; cases hfc

/-- When every listed reference table exists in the target with
name-distinct target columns covering the reference columns and target
index names covering the reference index names, the walk accumulates
nothing. -/
lemma checkTables_eq_empty (dev main : Catalog) (ts : List String)
    (h : ∀ t ∈ ts, t ∈ main.tables ∧
      ((main.columnsOf t).map (fun col => col.name)).Nodup ∧
      (∀ c ∈ dev.columnsOf t, c ∈ main.columnsOf t) ∧
      (∀ i ∈ dev.indexesOf t,
        i.name ∈ (main.indexesOf t).map (fun idx => idx.name))) :
    checkTables dev main ts =
      { missingTables := [], missingColumns := [],
        differentColumns := [], missingIndexes := [] } := by
  induction ts with
  | nil => rfl
  | cons t rest ih =>
    obtain ⟨hmem, hnd, hcols, hidx⟩ := h t (List.mem_cons_self t rest)
    have hrest := ih (fun u hu => h u (List.mem_cons_of_mem t hu))
    simp only [checkTables, hrest]
    rw [if_neg (not_not_intro hmem)]
    simp [tableMissingColumns_eq_nil t hnd hcols,
      tableDifferentColumns_eq_nil t hnd hcols,
      tableMissingIndexes_eq_nil hidx]

/-- The walk's missing-table list is the reference table list filtered to
the names absent from the target. -/
lemma checkTables_missingTables (dev main : Catalog) (ts : List String) :
    (checkTables dev main ts).missingTables =
      ts.filter (fun u => decide (¬ u ∈ main.tables)) := by
  induction ts with
  | nil => rfl
  | cons t rest ih =>
    simp only [checkTables, List.filter_cons]
    by_cases hmem : t ∈ main.tables
    · rw [if_neg (not_not_intro hmem)]
      simp [hmem, ih]
    · rw [if_pos hmem]
      simp [hmem, ih]

/-- Membership in the walk's aggregate missing-column list. -/
lemma mem_checkTables_missingColumns {dev main : Catalog}
    {ts : List String} {e : MissingColumnEntry} :
    e ∈ (checkTables dev main ts).missingColumns ↔
      ∃ u, u ∈ ts ∧ u ∈ main.tables ∧
        e ∈ tableMissingColumns u (dev.columnsOf u) (main.columnsOf u) := by
  induction ts with
  | nil => simp [checkTables]
  | cons t rest ih =>
    simp only [checkTables]
    by_cases hmem : t ∈ main.tables
    · rw [if_neg (not_not_intro hmem)]
      simp only [List.mem_append, ih]
      constructor
      · rintro (h | ⟨u, hu, hum, he⟩)
        · exact ⟨t, List.mem_cons_self t rest, hmem, h⟩
        · exact ⟨u, List.mem_cons_of_mem t hu, hum, he⟩
      · rintro ⟨u, hu, hum, he⟩
        rcases List.mem_cons.mp hu with rfl | hu
        · exact Or.inl he
        · exact Or.inr ⟨u, hu, hum, he⟩
    · rw [if_pos hmem]
      simp only [ih]
      constructor
      · rintro ⟨u, hu, hum, he⟩
        exact ⟨u, List.mem_cons_of_mem t hu, hum, he⟩
      · rintro ⟨u, hu, hum, he⟩
        rcases List.mem_cons.mp hu with rfl | hu
        · exact absurd hum hmem
        · exact ⟨u, hu, hum, he⟩

/-- Membership in the walk's aggregate missing-index list. -/
lemma mem_checkTables_missingIndexes {dev main : Catalog}
    {ts : List String} {i : IndexDescriptor} :
    i ∈ (checkTables dev main ts).missingIndexes ↔
      ∃ u, u ∈ ts ∧ u ∈ main.tables ∧
        i ∈ tableMissingIndexes (dev.indexesOf u) (main.indexesOf u) := by
  induction ts with
  | nil => simp [checkTables]
  | cons t rest ih =>
    simp only [checkTables]
    by_cases hmem : t ∈ main.tables
    · rw [if_neg (not_not_intro hmem)]
      simp only [List.mem_append, ih]
      constructor
      · rintro (h | ⟨u, hu, hum, he⟩)
        · exact ⟨t, List.mem_cons_self t rest, hmem, h⟩
        · exact ⟨u, List.mem_cons_of_mem t hu, hum, he⟩
      · rintro ⟨u, hu, hum, he⟩
        rcases List.mem_cons.mp hu with rfl | hu
        · exact Or.inl he
        · exact Or.inr ⟨u, hu, hum, he⟩
    · rw [if_pos hmem]
      simp only [ih]
      constructor
      · rintro ⟨u, hu, hum, he⟩
        exact ⟨u, List.mem_cons_of_mem t hu, hum, he⟩
      · rintro ⟨u, hu, hum, he⟩
        rcases List.mem_cons.mp hu with rfl | hu
        · exact absurd hum hmem
        · exact ⟨u, hu, hum, he⟩

/-- For a table present in both sides, its full per-table missing-column
list embeds in order into the walk's aggregate list. -/
lemma tableMissingColumns_sublist {dev main : Catalog} {ts : List String}
    {u : String} (hu : u ∈ ts) (hum : u ∈ main.tables) :
    (tableMissingColumns u (dev.columnsOf u) (main.columnsOf u)).Sublist
      (checkTables dev main ts).missingColumns := by
  induction ts with
  | nil => simp at hu
  | cons t rest ih =>
    simp only [checkTables]
    rcases List.mem_cons.mp hu with rfl | hu'
    · rw [if_neg (not_not_intro hum)]
      exact List.sublist_append_left _ _
    · by_cases hmem : t ∈ main.tables
      · rw [if_neg (not_not_intro hmem)]
        exact (ih hu').trans (List.sublist_append_right _ _)
      · rw [if_pos hmem]
        exact ih hu'

/-- For a table present in both sides, its full per-table
different-column list embeds in order into the walk's aggregate list. -/
lemma tableDifferentColumns_sublist {dev main : Catalog}
    {ts : List String} {u : String} (hu : u ∈ ts)
    (hum : u ∈ main.tables) :
    (tableDifferentColumns u (dev.columnsOf u) (main.columnsOf u)).Sublist
      (checkTables dev main ts).differentColumns := by
  induction ts with
  | nil => simp at hu
  | cons t rest ih =>
    simp only [checkTables]
    rcases List.mem_cons.mp hu with rfl | hu'
    · rw [if_neg (not_not_intro hum)]
      exact List.sublist_append_left _ _
    · by_cases hmem : t ∈ main.tables
      · rw [if_neg (not_not_intro hmem)]
        exact (ih hu').trans (List.sublist_append_right _ _)
      · rw [if_pos hmem]
        exact ih hu'

/-- For a table present in both sides, its full per-table missing-index
list embeds in order into the walk's aggregate list. -/
lemma tableMissingIndexes_sublist {dev main : Catalog} {ts : List String}
    {u : String} (hu : u ∈ ts) (hum : u ∈ main.tables) :
    (tableMissingIndexes (dev.indexesOf u) (main.indexesOf u)).Sublist
      (checkTables dev main ts).missingIndexes := by
  induction ts with
  | nil => simp at hu
  | cons t rest ih =>
    simp only [checkTables]
    rcases List.mem_cons.mp hu with rfl | hu'
    · rw [if_neg (not_not_intro hum)]
      exact List.sublist_append_left _ _
    · by_cases hmem : t ∈ main.tables
      · rw [if_neg (not_not_intro hmem)]
        exact (ih hu').trans (List.sublist_append_right _ _)
      · rw [if_pos hmem]
        exact ih hu'

/-- Each difference list of the returned result equals the corresponding
accumulated list: the out-of-sync branch returns them as accumulated, and
the in-sync branch returns empty lists exactly when all accumulated lists
are empty. -/
lemma checkAndReport_lists (dev main : Catalog) :
    (checkAndReport dev main).missingTables =
      (checkTables dev main dev.tables).missingTables ∧
    (checkAndReport dev main).missingColumns =
      (checkTables dev main dev.tables).missingColumns ∧
    (checkAndReport dev main).differentColumns =
      (checkTables dev main dev.tables).differentColumns ∧
    (checkAndReport dev main).missingIndexes =
      (checkTables dev main dev.tables).missingIndexes := by
  unfold checkAndReport
  by_cases h : (checkTables dev main dev.tables).missingTables.length > 0 ∨
      (checkTables dev main dev.tables).missingColumns.length > 0 ∨
      (checkTables dev main dev.tables).differentColumns.length > 0 ∨
      (checkTables dev main dev.tables).missingIndexes.length > 0
  · simp only [if_pos h]
    trivial
  · simp only [if_neg h]
    push_neg at h
    obtain ⟨h1, h2, h3, h4⟩ := h
    have e1 := List.length_eq_zero.mp (Nat.le_zero.mp h1)
    have e2 := List.length_eq_zero.mp (Nat.le_zero.mp h2)
    have e3 := List.length_eq_zero.mp (Nat.le_zero.mp h3)
    have e4 := List.length_eq_zero.mp (Nat.le_zero.mp h4)
    exact ⟨e1.symm, e2.symm, e3.symm, e4.symm⟩

/-- An accumulator whose four projections are empty is the empty
accumulator. -/
lemma driftLists_eq_empty (x : DriftLists) (h1 : x.missingTables = [])
    (h2 : x.missingColumns = []) (h3 : x.differentColumns = [])
    (h4 : x.missingIndexes = []) :
    x = { missingTables := [], missingColumns := [],
          differentColumns := [], missingIndexes := [] } := by
  rcases x with ⟨a, b, c, d⟩
  have h1a : a = [] := h1
  have h2a : b = [] := h2
  have h3a : c = [] := h3
  have h4a : d = [] := h4
  subst h1a h2a h3a h4a
  rfl

/-- The returned `isInSync` flag is `true` exactly when the walk
accumulated nothing. -/
lemma checkAndReport_isInSync_iff (dev main : Catalog) :
    (checkAndReport dev main).isInSync = true ↔
      checkTables dev main dev.tables =
        { missingTables := [], missingColumns := [],
          differentColumns := [], missingIndexes := [] } := by
  unfold checkAndReport
  by_cases h : (checkTables dev main dev.tables).missingTables.length > 0 ∨
      (checkTables dev main dev.tables).missingColumns.length > 0 ∨
      (checkTables dev main dev.tables).differentColumns.length > 0 ∨
      (checkTables dev main dev.tables).missingIndexes.length > 0
  · simp only [if_pos h]
    constructor
    · intro hh
      exact absurd hh (by simp)
    · intro he
      exfalso
      rw [he] at h
      simp at h
  · simp only [if_neg h]
    push_neg at h
    obtain ⟨h1, h2, h3, h4⟩ := h
    constructor
    · intro _
      exact driftLists_eq_empty _
        (List.length_eq_zero.mp (Nat.le_zero.mp h1))
        (List.length_eq_zero.mp (Nat.le_zero.mp h2))
        (List.length_eq_zero.mp (Nat.le_zero.mp h3))
        (List.length_eq_zero.mp (Nat.le_zero.mp h4))
    · intro _
      trivial

/-- If the walk accumulates nothing, the run returns the in-sync
result. -/
lemma checkAndReport_of_empty (dev main : Catalog)
    (h : checkTables dev main dev.tables =
      { missingTables := [], missingColumns := [],
        differentColumns := [], missingIndexes := [] }) :
    checkAndReport dev main =
      { isInSync := true, missingTables := [], missingColumns := [],
        differentColumns := [], missingIndexes := [] } := by
  unfold checkAndReport
  rw [h]
  rfl

/-! ## Claim theorems -/

/-- **C1**: the result's `isInSync` flag is true iff all four difference
lists of the result are empty; and for structurally equal catalogs
(same tables, columns and indexes; the reference side well-formed, i.e.
distinct table names and per-table distinct column names as the
`INFORMATION_SCHEMA` queries guarantee) the run returns `isInSync = true`
with all four lists empty. -/
theorem checkAndReport_inSync_spec (dev main : Catalog) :
    ((checkAndReport dev main).isInSync = true ↔
      (checkAndReport dev main).missingTables = [] ∧
      (checkAndReport dev main).missingColumns = [] ∧
      (checkAndReport dev main).differentColumns = [] ∧
      (checkAndReport dev main).missingIndexes = []) ∧
    (wellFormed dev → structEq dev main →
      checkAndReport dev main =
        { isInSync := true, missingTables := [], missingColumns := [],
          differentColumns := [], missingIndexes := [] }) := by
  obtain ⟨l1, l2, l3, l4⟩ := checkAndReport_lists dev main
  constructor
  · rw [checkAndReport_isInSync_iff, l1, l2, l3, l4]
    constructor
    · intro he
      rw [he]
      exact ⟨rfl, rfl, rfl, rfl⟩
    · rintro ⟨e1, e2, e3, e4⟩
      exact driftLists_eq_empty _ e1 e2 e3 e4
  · intro hwf hst
    apply checkAndReport_of_empty
    apply checkTables_eq_empty
    intro t ht
    obtain ⟨hteq, hfun⟩ := hst
    obtain ⟨hcols_eq, hidx_eq⟩ := hfun t ht
    obtain ⟨_, hwft⟩ := hwf
    obtain ⟨hndcols, _⟩ := hwft t ht
    refine ⟨hteq ▸ ht, ?_, ?_, ?_⟩
    · rw [← hcols_eq]
      exact hndcols
    · intro c hc
      rw [← hcols_eq]
      exact hc
    · intro i hi
      rw [← hidx_eq]
      exact List.mem_map_of_mem _ hi

/-- Witness for C1: a concrete catalog compared with itself is reported
in sync with all four lists empty. -/
theorem checkAndReport_inSync_spec_witness :
    checkAndReport catB catB =
      { isInSync := true, missingTables := [], missingColumns := [],
        differentColumns := [], missingIndexes := [] } :=
  (checkAndReport_inSync_spec catB catB).2 (by decide)
    ⟨rfl, fun _ _ => ⟨rfl, rfl⟩⟩

/-- **C2**: the diff is one-directional.  When the target is a
structural superset of the reference (every table, column and index of
the reference exists identically in the target, which is well-formed),
the run returns `isInSync = true` with all four difference lists empty —
in particular no element present only in the target ever appears in any
of the four lists, since they are empty. -/
theorem checkAndReport_superset_inSync (a b : Catalog)
    (hwf : wellFormed b) (hsup : structuralSuperset a b) :
    checkAndReport a b =
      { isInSync := true, missingTables := [], missingColumns := [],
        differentColumns := [], missingIndexes := [] } := by
  apply checkAndReport_of_empty
  apply checkTables_eq_empty
  intro t ht
  obtain ⟨htab, hper⟩ := hsup
  obtain ⟨hcols, hidx⟩ := hper t ht
  have htb := htab t ht
  obtain ⟨_, hwfb⟩ := hwf
  obtain ⟨hnd, _⟩ := hwfb t htb
  exact ⟨htb, hnd, hcols, fun i hi => List.mem_map_of_mem _ (hidx i hi)⟩

/-- Witness for C2: a concrete strict superset target (extra table,
extra column, extra index) is reported in sync. -/
theorem checkAndReport_superset_inSync_witness :
    checkAndReport catB catBplus =
      { isInSync := true, missingTables := [], missingColumns := [],
        differentColumns := [], missingIndexes := [] } :=
  checkAndReport_superset_inSync catB catBplus (by decide) (by decide)

/-- **C3**: a reference table absent from the target's table-name set is
recorded exactly once in `missingTables`, and the walk does not descend
into it — no missing-column entry and no missing-index entry belongs to
that table — while every table present on both sides still contributes
its full per-table missing-column, different-column and missing-index
findings to the result, in order. -/
theorem checkAndReport_missingTable_not_descended (dev main : Catalog)
    (t : String) (hwf : wellFormed dev) (ht : t ∈ dev.tables)
    (hnt : ¬ t ∈ main.tables) :
    (checkAndReport dev main).missingTables.count t = 1 ∧
    (∀ e ∈ (checkAndReport dev main).missingColumns, e.table ≠ t) ∧
    (∀ i ∈ (checkAndReport dev main).missingIndexes, i.table ≠ t) ∧
    (∀ u ∈ dev.tables, u ∈ main.tables →
      (tableMissingColumns u (dev.columnsOf u) (main.columnsOf u)).Sublist
        (checkAndReport dev main).missingColumns ∧
      (tableDifferentColumns u (dev.columnsOf u)
        (main.columnsOf u)).Sublist
        (checkAndReport dev main).differentColumns ∧
      (tableMissingIndexes (dev.indexesOf u) (main.indexesOf u)).Sublist
        (checkAndReport dev main).missingIndexes) := by
  obtain ⟨l1, l2, l3, l4⟩ := checkAndReport_lists dev main
  obtain ⟨hndT, hwft⟩ := hwf
  refine ⟨?_, ?_, ?_, ?_⟩
  · rw [l1, checkTables_missingTables,
      List.count_filter (by simpa using hnt)]
    exact List.count_eq_one_of_mem hndT ht
  · intro e he
    rw [l2] at he
    obtain ⟨u, _, hum, hmem⟩ := mem_checkTables_missingColumns.mp he
    have htab := table_of_mem_tableMissingColumns hmem
    intro hct
    have hut : u = t := by rw [← htab, hct]
    exact hnt (hut ▸ hum)
  · intro i hi
    rw [l4] at hi
    obtain ⟨u, hu, hum, hmem⟩ := mem_checkTables_missingIndexes.mp hi
    have hidev : i ∈ dev.indexesOf u := (mem_tableMissingIndexes.mp hmem).1
    have htag : i.table = u := (hwft u hu).2 i hidev
    intro hct
    have hut : u = t := by rw [← htag, hct]
    exact hnt (hut ▸ hum)
  · intro u hu hum
    refine ⟨?_, ?_, ?_⟩
    · rw [l2]
      exact tableMissingColumns_sublist hu hum
    · rw [l3]
      exact tableDifferentColumns_sublist hu hum
    · rw [l4]
      exact tableMissingIndexes_sublist hu hum

/-- Witness for C3: with reference tables `orders, users` and target
table `users` only, `orders` is counted exactly once among the missing
tables. -/
theorem checkAndReport_missingTable_not_descended_witness :
    (checkAndReport catA catB).missingTables.count "orders" = 1 :=
  (checkAndReport_missingTable_not_descended catA catB "orders"
    (by decide) (by decide) (by decide)).1

/-- **C4**: the comparator checks its four dimensions in the fixed order
type, nullable, default, extra, each contributing at most one note
(so the output is a deterministic ordered list of at most four notes);
and on the spec's example — reference `int(11)` versus target `int(10)`,
all else equal — it returns exactly one note carrying `int(10)` then
`int(11)` in that transition order. -/
theorem compareColumns_dimension_order :
    (∀ d m : ColumnDescriptor,
      compareColumns d m =
        (if d.type ≠ m.type then
          ["type: '" ++ m.type ++ "' → '" ++ d.type ++ "'"] else []) ++
        (if d.nullable ≠ m.nullable then
          ["nullable: " ++ m.nullable ++ " → " ++ d.nullable] else []) ++
        (if normalizeDefault d.defaultValue ≠
            normalizeDefault m.defaultValue then
          ["default: " ++ normalizeDefault m.defaultValue ++ " → " ++
            normalizeDefault d.defaultValue] else []) ++
        (if d.extra ≠ m.extra then
          ["extra: '" ++ m.extra ++ "' → '" ++ d.extra ++ "'"] else [])) ∧
    (∀ d m : ColumnDescriptor, (compareColumns d m).length ≤ 4) ∧
    compareColumns refIntCol tgtIntCol = ["type: 'int(10)' → 'int(11)'"] := by
  have hshape : ∀ d m : ColumnDescriptor,
      compareColumns d m =
        (if d.type ≠ m.type then
          ["type: '" ++ m.type ++ "' → '" ++ d.type ++ "'"] else []) ++
        (if d.nullable ≠ m.nullable then
          ["nullable: " ++ m.nullable ++ " → " ++ d.nullable] else []) ++
        (if normalizeDefault d.defaultValue ≠
            normalizeDefault m.defaultValue then
          ["default: " ++ normalizeDefault m.defaultValue ++ " → " ++
            normalizeDefault d.defaultValue] else []) ++
        (if d.extra ≠ m.extra then
          ["extra: '" ++ m.extra ++ "' → '" ++ d.extra ++ "'"] else []) := by
    intro d m
    unfold compareColumns
    split_ifs <;> simp_all
  refine ⟨hshape, ?_, by decide⟩
  intro d m
  rw [hshape d m]
  split_ifs <;> simp

/-- A `PRIMARY` catalog row leaves the accumulator untouched. -/
lemma addIndexRow_primary (t : String) (acc : List IndexDescriptor)
    (row : IndexRow) (h : row.Key_name = "PRIMARY") :
    addIndexRow t acc row = acc := by
  simp [addIndexRow, h]

/-- Dropping the `PRIMARY` rows from the input does not change the
grouped output: primary-key rows are filtered out unconditionally. -/
lemma getTableIndexes_filter_primary (t : String) (rows : List IndexRow) :
    getTableIndexes t (rows.filter (fun r => !(r.Key_name == "PRIMARY"))) =
      getTableIndexes t rows := by
  unfold getTableIndexes
  suffices h : ∀ acc, (rows.filter
      (fun r => !(r.Key_name == "PRIMARY"))).foldl (addIndexRow t) acc =
      rows.foldl (addIndexRow t) acc from h []
  induction rows with
  | nil =>
    intro acc
    rfl
  | cons r rest ih =>
    intro acc
    by_cases h : r.Key_name = "PRIMARY"
    · have hp : (!(r.Key_name == "PRIMARY")) = false := by simp [h]
      rw [List.filter_cons, hp]
      simp only [List.foldl_cons, addIndexRow_primary t acc r h]
      exact ih acc
    · have hp : (!(r.Key_name == "PRIMARY")) = true := by simp [h]
      rw [List.filter_cons, hp]
      simp only [List.foldl_cons]
      exact ih _

/-- Grouping invariant of `getTableIndexes`: every produced descriptor
carries the queried table name, is not `PRIMARY`, collects exactly the
column names of the rows bearing its index name in row order, and takes
`unique` from the first such row's inverted non-unique flag; descriptor
names are pairwise distinct; and every non-primary row's index name is
represented by some descriptor. -/
lemma getTableIndexes_invariant (t : String) (rows : List IndexRow) :
    (∀ d ∈ getTableIndexes t rows,
      d.table = t ∧ ¬ d.name = "PRIMARY" ∧
      d.columns = (rows.filter
        (fun r => r.Key_name == d.name)).map (fun r => r.Column_name) ∧
      (rows.find? (fun r => r.Key_name == d.name)).map
        (fun r => decide (r.Non_unique = 0)) = some d.unique) ∧
    ((getTableIndexes t rows).map (fun d => d.name)).Nodup ∧
    (∀ r ∈ rows, ¬ r.Key_name = "PRIMARY" →
      ∃ d ∈ getTableIndexes t rows, d.name = r.Key_name) := by
  induction rows using List.reverseRecOn with
  | nil =>
    refine ⟨?_, ?_, ?_⟩ <;> simp [getTableIndexes]
  | append_singleton pre row ih =>
    obtain ⟨ih1, ih2, ih3⟩ := ih
    have hfold : getTableIndexes t (pre ++ [row]) =
        addIndexRow t (getTableIndexes t pre) row := by
      simp [getTableIndexes, List.foldl_append]
    by_cases hprim : row.Key_name = "PRIMARY"
    · -- a primary row is skipped entirely
      rw [hfold, addIndexRow_primary t _ row hprim]
      refine ⟨?_, ih2, ?_⟩
      · intro d hd
        obtain ⟨hdt, hdn, hdc, hdu⟩ := ih1 d hd
        have hne : (row.Key_name == d.name) = false :=
          beq_eq_false_iff_ne.mpr (fun he => hdn (he ▸ hprim))
        refine ⟨hdt, hdn, ?_, ?_⟩
        · rw [List.filter_append, hdc]
          simp [hne]
        · cases hc : pre.find? (fun r => r.Key_name == d.name) with
          | none =>
            rw [hc] at hdu
            cases hdu
          | some r0 =>
            rw [hc] at hdu
            rw [List.find?_append, hc]
            exact hdu
      · intro r hr hnp
        rcases List.mem_append.mp hr with hr | hr
        · exact ih3 r hr hnp
        · rw [List.mem_singleton.mp hr] at hnp
          exact absurd hprim hnp
    · by_cases hany : (getTableIndexes t pre).any
          (fun d => d.name == row.Key_name) = true
      · -- the index name is already grouped: push this row's column
        have hstep : addIndexRow t (getTableIndexes t pre) row =
            (getTableIndexes t pre).map (fun d =>
              if d.name == row.Key_name then
                { d with columns := d.columns ++ [row.Column_name] }
              else d) := by
          simp [addIndexRow, hprim, hany]
        rw [hfold, hstep]
        obtain ⟨d0, hd0A, hd0n⟩ := List.any_eq_true.mp hany
        refine ⟨?_, ?_, ?_⟩
        · intro d' hd'
          obtain ⟨d, hdA, hde⟩ := List.mem_map.mp hd'
          obtain ⟨hdt, hdn, hdc, hdu⟩ := ih1 d hdA
          by_cases hmatch : (d.name == row.Key_name) = true
          · rw [if_pos hmatch] at hde
            subst hde
            have hEq : d.name = row.Key_name := beq_iff_eq.mp hmatch
            refine ⟨hdt, hdn, ?_, ?_⟩
            · rw [List.filter_append, List.map_append, ← hdc]
              have hrow : (row.Key_name == d.name) = true :=
                beq_iff_eq.mpr hEq.symm
              simp [List.filter_cons, hrow]
            · cases hc : pre.find? (fun r => r.Key_name == d.name) with
              | none =>
                rw [hc] at hdu
                cases hdu
              | some r0 =>
                rw [hc] at hdu
                rw [List.find?_append, hc]
                exact hdu
          · rw [if_neg hmatch] at hde
            subst hde
            have hne : (row.Key_name == d.name) = false := by
              refine beq_eq_false_iff_ne.mpr (fun he => ?_)
              exact hmatch (beq_iff_eq.mpr he.symm)
            refine ⟨hdt, hdn, ?_, ?_⟩
            · rw [List.filter_append, hdc]
              simp [hne]
            · cases hc : pre.find? (fun r => r.Key_name == d.name) with
              | none =>
                rw [hc] at hdu
                cases hdu
              | some r0 =>
                rw [hc] at hdu
                rw [List.find?_append, hc]
                exact hdu
        · have hnames : ((getTableIndexes t pre).map (fun d =>
              if d.name == row.Key_name then
                { d with columns := d.columns ++ [row.Column_name] }
              else d)).map (fun d => d.name) =
              (getTableIndexes t pre).map (fun d => d.name) := by
            rw [List.map_map]
            refine List.map_congr_left (fun d _ => ?_)
            by_cases h : (d.name == row.Key_name) = true <;>
              simp [Function.comp, h]
          rw [hnames]
          exact ih2
        · intro r hr hnp
          rcases List.mem_append.mp hr with hr | hr
          · obtain ⟨d, hdA, hdn⟩ := ih3 r hr hnp
            refine ⟨if d.name == row.Key_name then
              { d with columns := d.columns ++ [row.Column_name] }
              else d, List.mem_map_of_mem _ hdA, ?_⟩
            have hname : (if d.name == row.Key_name then
                { d with columns := d.columns ++ [row.Column_name] }
                else d).name = d.name := by
              by_cases h : (d.name == row.Key_name) = true
              · rw [if_pos h]
              · rw [if_neg h]
            rw [hname, hdn]
          · rw [List.mem_singleton.mp hr]
            refine ⟨if d0.name == row.Key_name then
              { d0 with columns := d0.columns ++ [row.Column_name] }
              else d0, List.mem_map_of_mem _ hd0A, ?_⟩
            have hname : (if d0.name == row.Key_name then
                { d0 with columns := d0.columns ++ [row.Column_name] }
                else d0).name = d0.name := by
              by_cases h : (d0.name == row.Key_name) = true
              · rw [if_pos h]
              · rw [if_neg h]
            rw [hname, beq_iff_eq.mp hd0n]
      · -- a fresh index name: append a new descriptor holding this column
        have hnotmem : ∀ d ∈ getTableIndexes t pre,
            (d.name == row.Key_name) = false := by
          intro d hd
          by_contra hcon
          exact hany (List.any_eq_true.mpr
            ⟨d, hd, Bool.of_not_eq_false hcon⟩)
        have hstep : addIndexRow t (getTableIndexes t pre) row =
            getTableIndexes t pre ++
              [{ name := row.Key_name, columns := [row.Column_name],
                 unique := decide (row.Non_unique = 0), table := t }] := by
          unfold addIndexRow
          rw [if_neg hprim]
          dsimp only
          rw [if_neg hany, List.map_append]
          have hfix : (getTableIndexes t pre).map (fun d =>
              if d.name == row.Key_name then
                { d with columns := d.columns ++ [row.Column_name] }
              else d) = getTableIndexes t pre := by
            have := List.map_congr_left (l := getTableIndexes t pre)
              (f := fun d =>
                if d.name == row.Key_name then
                  { d with columns := d.columns ++ [row.Column_name] }
                else d)
              (g := fun d => d)
              (fun d hd => by
                dsimp only
                rw [if_neg (by simp [hnotmem d hd])])
            rw [this]
            simp
          rw [hfix]
          simp
        rw [hfold, hstep]
        have hnopre : ∀ r ∈ pre, (r.Key_name == row.Key_name) = false := by
          intro r hr
          refine beq_eq_false_iff_ne.mpr (fun he => ?_)
          have hnp : ¬ r.Key_name = "PRIMARY" := by
            rw [he]
            exact hprim
          obtain ⟨d, hdA, hdn⟩ := ih3 r hr hnp
          have hb : (d.name == row.Key_name) = true :=
            beq_iff_eq.mpr (by rw [hdn, he])
          rw [hnotmem d hdA] at hb
          cases hb
        have hfilpre : pre.filter
            (fun r => r.Key_name == row.Key_name) = [] :=
          List.filter_eq_nil_iff.mpr
            (fun r hr => by simp [hnopre r hr])
        have hfindpre : pre.find?
            (fun r => r.Key_name == row.Key_name) = none :=
          List.find?_eq_none.mpr (fun r hr => by simp [hnopre r hr])
        refine ⟨?_, ?_, ?_⟩
        · intro d' hd'
          rcases List.mem_append.mp hd' with hd' | hd'
          · obtain ⟨hdt, hdn, hdc, hdu⟩ := ih1 d' hd'
            have hne : (row.Key_name == d'.name) = false := by
              refine beq_eq_false_iff_ne.mpr (fun he => ?_)
              have hb : (d'.name == row.Key_name) = true :=
                beq_iff_eq.mpr he.symm
              rw [hnotmem d' hd'] at hb
              cases hb
            refine ⟨hdt, hdn, ?_, ?_⟩
            · rw [List.filter_append, hdc]
              simp [hne]
            · cases hc : pre.find? (fun r => r.Key_name == d'.name) with
              | none =>
                rw [hc] at hdu
                cases hdu
              | some r0 =>
                rw [hc] at hdu
                rw [List.find?_append, hc]
                exact hdu
          · rw [List.mem_singleton.mp hd']
            refine ⟨rfl, hprim, ?_, ?_⟩
            · simp [List.filter_append, hfilpre]
            · simp [List.find?_append, hfindpre]
        · rw [List.map_append]
          refine List.nodup_append.mpr ⟨ih2, by simp, ?_⟩
          intro a haA hab
          simp only [List.map_cons, List.map_nil,
            List.mem_singleton] at hab
          obtain ⟨d, hdA, hdn⟩ := List.mem_map.mp haA
          have hb : (d.name == row.Key_name) = true :=
            beq_iff_eq.mpr (by rw [hdn, hab])
          rw [hnotmem d hdA] at hb
          cases hb
        · intro r hr hnp
          rcases List.mem_append.mp hr with hr | hr
          · obtain ⟨d, hdA, hdn⟩ := ih3 r hr hnp
            exact ⟨d, List.mem_append.mpr (Or.inl hdA), hdn⟩
          · rw [List.mem_singleton.mp hr]
            exact ⟨_, List.mem_append.mpr
              (Or.inr (List.mem_singleton.mpr rfl)), rfl⟩

/-- **C5**: `getTableIndexes` groups the one-row-per-(index, column)
catalog output by index name — each descriptor's `columns` are exactly
the column names of its rows in encounter order, `unique` is the
inverted non-unique flag of the first row of that index, descriptor
names are distinct — primary-key rows are filtered out unconditionally
(dropping them first changes nothing), and on the spec's example rows it
returns exactly one descriptor `ix_a` over `x, y` with `unique = true`. -/
theorem getTableIndexes_grouping :
    (∀ (t : String) (rows : List IndexRow),
      (∀ d ∈ getTableIndexes t rows,
        d.table = t ∧ ¬ d.name = "PRIMARY" ∧
        d.columns = (rows.filter
          (fun r => r.Key_name == d.name)).map (fun r => r.Column_name) ∧
        (rows.find? (fun r => r.Key_name == d.name)).map
          (fun r => decide (r.Non_unique = 0)) = some d.unique) ∧
      ((getTableIndexes t rows).map (fun d => d.name)).Nodup ∧
      getTableIndexes t
        (rows.filter (fun r => !(r.Key_name == "PRIMARY"))) =
        getTableIndexes t rows) ∧
    getTableIndexes "users" ixRows =
      [{ name := "ix_a", columns := ["x", "y"], unique := true,
         table := "users" }] :=
  ⟨fun t rows =>
    ⟨(getTableIndexes_invariant t rows).1,
     (getTableIndexes_invariant t rows).2.1,
     getTableIndexes_filter_primary t rows⟩,
   by decide⟩

/-- **C6**: missing-index detection is name-only.  For a table present
on both sides, a reference index lands in `missingIndexes` exactly when
no target index of that table bears its name; in particular an index
existing under the same name on both sides — even with different column
sets or uniqueness — is never reported (and the result carries no other
index-difference list at all). -/
theorem checkAndReport_missingIndex_name_only (dev main : Catalog)
    (t : String) (i : IndexDescriptor) (hwf : wellFormed dev)
    (ht : t ∈ dev.tables) (htm : t ∈ main.tables)
    (hi : i ∈ dev.indexesOf t) :
    i ∈ (checkAndReport dev main).missingIndexes ↔
      ¬ i.name ∈ (main.indexesOf t).map (fun idx => idx.name) := by
  obtain ⟨-, -, -, l4⟩ := checkAndReport_lists dev main
  obtain ⟨-, hwft⟩ := hwf
  rw [l4]
  constructor
  · intro hmem
    obtain ⟨u, hu, hum, hmu⟩ := mem_checkTables_missingIndexes.mp hmem
    obtain ⟨hidev, hnot⟩ := mem_tableMissingIndexes.mp hmu
    have h1 : i.table = u := (hwft u hu).2 i hidev
    have h2 : i.table = t := (hwft t ht).2 i hi
    have hut : u = t := by rw [← h1, h2]
    exact hut ▸ hnot
  · intro hnot
    exact mem_checkTables_missingIndexes.mpr
      ⟨t, ht, htm, mem_tableMissingIndexes.mpr ⟨hi, hnot⟩⟩

/-- Witness for C6: an index named `ix_a` existing on both sides with
different column sets and uniqueness is not reported missing. -/
theorem checkAndReport_missingIndex_name_only_witness :
    ¬ ixNarrow ∈ (checkAndReport catIxRef catIxTgt).missingIndexes :=
  fun hmem =>
    ((checkAndReport_missingIndex_name_only catIxRef catIxTgt "t1"
      ixNarrow (by decide) (by decide) (by decide) (by decide)).mp hmem)
      (by decide)

/-- **C7**: the ALTER command for a missing column is the base
`ALTER TABLE ... ADD COLUMN ... <type>` with `NOT NULL` appended exactly
when `nullable = "NO"`, `DEFAULT <value>` exactly when the default is
non-null, and the extra string verbatim exactly when nonempty; on the
spec's example column it produces exactly the expected statement. -/
theorem generateAlterColumnCommand_clauses :
    (∀ (t : String) (c : ColumnDescriptor),
      generateAlterColumnCommand t c =
        "ALTER TABLE `" ++ t ++ "` ADD COLUMN `" ++ c.name ++ "` " ++
          c.type ++
          (if c.nullable = "NO" then " NOT NULL" else "") ++
          (match c.defaultValue with
            | some v => " DEFAULT " ++ v
            | none => "") ++
          (if c.extra ≠ "" then " " ++ c.extra else "") ++ ";") ∧
    generateAlterColumnCommand "users" colAge =
      "ALTER TABLE `users` ADD COLUMN `age` int NOT NULL DEFAULT 0;" := by
  refine ⟨?_, by decide⟩
  intro t c
  unfold generateAlterColumnCommand
  by_cases h1 : c.nullable = "NO" <;> cases hd : c.defaultValue <;>
    by_cases h3 : c.extra ≠ "" <;>
      simp [h1, hd, h3, String.append_empty, ← String.append_assoc]

/-- **C8**: the null default sentinel is normalized to the literal
string `NULL` on both sides before comparison, so two columns agreeing
on type, nullable and extra, one with no default and the other with the
literal string `"NULL"` as default, compare as equal. -/
theorem compareColumns_null_sentinel (d m : ColumnDescriptor)
    (htype : d.type = m.type) (hnull : d.nullable = m.nullable)
    (hextra : d.extra = m.extra)
    (hdef : (d.defaultValue = none ∧ m.defaultValue = some "NULL") ∨
      (d.defaultValue = some "NULL" ∧ m.defaultValue = none)) :
    compareColumns d m = [] := by
  unfold compareColumns
  rcases hdef with ⟨h1, h2⟩ | ⟨h1, h2⟩ <;>
    simp [htype, hnull, hextra, h1, h2, normalizeDefault]

/-- Witness for C8: a concrete null-default column compares equal to its
literal-`NULL`-default twin. -/
theorem compareColumns_null_sentinel_witness :
    compareColumns refIntCol
      { refIntCol with defaultValue := some "NULL" } = [] :=
  compareColumns_null_sentinel _ _ rfl rfl rfl (Or.inl ⟨rfl, rfl⟩)

/-- **C9** (evidence of the divergence): when both connections open and
a later step fails, the richer variant's run ends in `process.exit(1)`
from the `catch` block with no close event — the opened connections are
never released — and in the minimal variant even a fully successful run
emits no close event, because `process.exit` inside the `try` prevents
the `finally` cleanup from running; only the richer variant's fully
successful path releases both connections before exiting. -/
theorem mainTrace_connection_leak :
    mainTraceDist failAfterConnect =
      [RunEvent.openMain, RunEvent.openDev, RunEvent.processExit 1] ∧
    ¬ RunEvent.closeMain ∈ mainTraceDist failAfterConnect ∧
    ¬ RunEvent.closeDev ∈ mainTraceDist failAfterConnect ∧
    ¬ RunEvent.closeMain ∈ mainTraceMinimal allStepsOk ∧
    ¬ RunEvent.closeDev ∈ mainTraceMinimal allStepsOk ∧
    mainTraceDist allStepsOk =
      [RunEvent.openMain, RunEvent.openDev, RunEvent.closeMain,
       RunEvent.closeDev, RunEvent.processExit 0] := by
  decide

/-- **C10**: a defaultValue that is the empty string (distinct from the
null sentinel) still triggers the `DEFAULT` clause in both emitters,
with nothing after the keyword: with extra also empty the statement ends
in `" DEFAULT ;"`. -/
theorem generateCommands_empty_default (t : String)
    (c : ColumnDescriptor) (hdef : c.defaultValue = some "")
    (hextra : c.extra = "") :
    (∃ p, generateAlterColumnCommand t c = p ++ " DEFAULT ;") ∧
    (∃ q, generateModifyColumnCommand t c = q ++ " DEFAULT ;") := by
  constructor
  · unfold generateAlterColumnCommand
    by_cases h1 : c.nullable = "NO"
    · exact ⟨"ALTER TABLE `" ++ t ++ "` ADD COLUMN `" ++ c.name ++
        "` " ++ c.type ++ " NOT NULL",
        by simp [hdef, hextra, h1, String.append_assoc]⟩
    · exact ⟨"ALTER TABLE `" ++ t ++ "` ADD COLUMN `" ++ c.name ++
        "` " ++ c.type,
        by simp [hdef, hextra, h1, String.append_assoc]⟩
  · unfold generateModifyColumnCommand
    by_cases h1 : c.nullable = "NO"
    · exact ⟨"ALTER TABLE `" ++ t ++ "` MODIFY COLUMN `" ++ c.name ++
        "` " ++ c.type ++ " NOT NULL",
        by simp [hdef, hextra, h1, String.append_assoc]⟩
    · exact ⟨"ALTER TABLE `" ++ t ++ "` MODIFY COLUMN `" ++ c.name ++
        "` " ++ c.type,
        by simp [hdef, hextra, h1, String.append_assoc]⟩

/-- Witness for C10 at a concrete column with empty-string default and
empty extra. -/
theorem generateCommands_empty_default_witness :
    (∃ p, generateAlterColumnCommand "users"
      { colAge with defaultValue := some "" } = p ++ " DEFAULT ;") ∧
    (∃ q, generateModifyColumnCommand "users"
      { colAge with defaultValue := some "" } = q ++ " DEFAULT ;") :=
  generateCommands_empty_default "users"
    { colAge with defaultValue := some "" } rfl rfl

end SchemaCompare
